import Mathlib

/-!
Formal model of `bridges_top_n.py` (DeFiLlama bridges ETL).

The Python program downloads daily bridge-volume records, normalizes them into
daily rows, filters them to a month range, aggregates them into monthly and
yearly tables, and selects top-N leaderboards with percentage shares.

Numbers are modelled as exact rationals (`ℚ`): every comparison and sum the
verified properties mention is between values that the Python floats represent
exactly enough for the claims at hand, and the model keeps division by zero
explicit (an `Option ℚ` whose `none` stands for a non-finite float) instead of
letting `ℚ`'s total division hide it.
-/

attribute [local semireducible] Rat.mul Rat.inv Rat.add Rat.sub Rat.ofScientific

/-- Values of the dynamically typed Python payloads reaching the coercion
utilities: `None`, ints, floats and strings. -/
inductive PyVal where
  | pnone
  | pint (n : ℤ)
  | pfloat (q : ℚ)
  | pstr (s : String)
deriving DecidableEq, Repr

/-- Python `s.strip()`: remove leading and trailing whitespace. -/
def pyStrip (s : String) : String :=
  String.mk (((s.toList.dropWhile Char.isWhitespace).reverse.dropWhile Char.isWhitespace).reverse)

/-- Python `s.replace(c, "")` for a one-character pattern: drop every occurrence. -/
def removeChar (c : Char) (s : String) : String :=
  String.mk (s.toList.filter (fun x => x ≠ c))

/-- Python `s.replace(c, d)` for one-character pattern and replacement. -/
def replaceChar (c d : Char) (s : String) : String :=
  String.mk (s.toList.map (fun x => if x = c then d else x))

/-- Numeric value of a digit character. -/
def digitVal (c : Char) : ℕ := c.toNat - 48

/-- Value of a digit string read left to right. -/
def digitsToNat (cs : List Char) : ℕ := cs.foldl (fun a c => 10 * a + digitVal c) 0

/-- Exponent part of a float literal after the `e`: optional sign, then a
nonempty run of digits. -/
def parseExp (cs : List Char) : Option ℤ :=
  match cs with
  | [] => Option.none
  | '+' :: t => if t ≠ [] ∧ t.all Char.isDigit then some (digitsToNat t : ℤ) else Option.none
  | '-' :: t => if t ≠ [] ∧ t.all Char.isDigit then some (-(digitsToNat t : ℤ)) else Option.none
  | t => if t.all Char.isDigit then some (digitsToNat t : ℤ) else Option.none

/-- Mantissa of a float literal: digits, optionally a dot and more digits,
with at least one digit overall. -/
def parseMantissa (cs : List Char) : Option ℚ :=
  let p := cs.span Char.isDigit
  match p.2 with
  | [] => if p.1 = [] then Option.none else some (digitsToNat p.1 : ℚ)
  | '.' :: fp =>
    if fp.all Char.isDigit ∧ (p.1 ≠ [] ∨ fp ≠ []) then
      some ((digitsToNat p.1 : ℚ) + (digitsToNat fp : ℚ) / (10 : ℚ) ^ fp.length)
    else Option.none
  | _ :: _ => Option.none

/-- Python `float(s)` restricted to finite decimal literals (the `inf`, `nan`
and underscore forms never arise from this program's candidate strings).
`none` models a raised `ValueError`. -/
def pyFloat? (s : String) : Option ℚ :=
  let cs := (pyStrip s).toList
  let sc : ℚ × List Char :=
    match cs with
    | '+' :: t => (1, t)
    | '-' :: t => (-1, t)
    | t => (1, t)
  let mr := sc.2.span (fun c => c ≠ 'e' ∧ c ≠ 'E')
  match parseMantissa mr.1, mr.2 with
  | some m, [] => some (sc.1 * m)
  | some m, _ :: t =>
    match parseExp t with
    | some e => some (sc.1 * m * (10 : ℚ) ^ e)
    | Option.none => Option.none
  | Option.none, _ => Option.none

/-- nz(v, fb) from the source: return `fb` when `v` is `None` or an
all-whitespace string, else `v` unchanged. -/
def nz (v fb : PyVal) : PyVal :=
  match v with
  | .pnone => fb
  | .pstr s => if pyStrip s = "" then fb else v
  | _ => v

/-- to_float from the source: best-effort coercion to a float. `None` gives 0;
numbers pass through; a string is stripped, and the three normalization
candidates (drop spaces; drop dots then comma becomes dot; drop commas) are
parsed in order, first success winning, 0 if all fail. -/
def to_float (x : PyVal) : ℚ :=
  match x with
  | .pnone => 0
  | .pint n => (n : ℚ)
  | .pfloat q => q
  | .pstr x =>
    let s := pyStrip x
    if s = "" then 0
    else
      let candidates := [removeChar ' ' s,
                         replaceChar ',' '.' (removeChar '.' s),
                         removeChar ',' s]
      match candidates.findSome? pyFloat? with
      | some v => v
      | Option.none => 0

/-- Python `int(s)` on a string: optional sign then a nonempty digit run,
surrounding whitespace allowed. `none` models a raised `ValueError`. -/
def pyIntOfStr? (s : String) : Option ℤ :=
  match (pyStrip s).toList with
  | [] => Option.none
  | '+' :: t => if t ≠ [] ∧ t.all Char.isDigit then some (digitsToNat t : ℤ) else Option.none
  | '-' :: t => if t ≠ [] ∧ t.all Char.isDigit then some (-(digitsToNat t : ℤ)) else Option.none
  | t => if t.all Char.isDigit then some (digitsToNat t : ℤ) else Option.none

/-- Truncation toward zero, as Python `int(float)`. -/
def truncQ (q : ℚ) : ℤ := if 0 ≤ q then ⌊q⌋ else -⌊-q⌋

/-- Python `int(v)`; `none` models a raised `TypeError` or `ValueError`. -/
def pyInt? (v : PyVal) : Option ℤ :=
  match v with
  | .pnone => Option.none
  | .pint n => some n
  | .pfloat q => some (truncQ q)
  | .pstr s => pyIntOfStr? s

/-- The timestamp computed at source lines 154–157:
`ts = int(nz(r.get("date"), 0))` with any exception giving `ts = 0`. -/
def tsOf (v : PyVal) : ℤ := (pyInt? (nz v (.pint 0))).getD 0

/-- Civil (proleptic Gregorian) date `(y, m, d)` of a count of days since
1970-01-01; this is the arithmetic underlying
`datetime.utcfromtimestamp(ts).date()`. -/
def civilFromDays (z0 : ℤ) : ℤ × ℤ × ℤ :=
  let z := z0 + 719468
  let era := Int.fdiv z 146097
  let doe := z - era * 146097
  let yoe := Int.fdiv (doe - Int.fdiv doe 1460 + Int.fdiv doe 36524 - Int.fdiv doe 146096) 365
  let y := yoe + era * 400
  let doy := doe - (365 * yoe + Int.fdiv yoe 4 - Int.fdiv yoe 100)
  let mp := Int.fdiv (5 * doy + 2) 153
  let d := doy - Int.fdiv (153 * mp + 2) 5 + 1
  let m := mp + (if mp < 10 then 3 else -9)
  (y + (if m ≤ 2 then 1 else 0), m, d)

/-- Two-digit zero padding of a (small, nonnegative) number. -/
def pad2 (n : ℤ) : String := if n < 10 then "0" ++ toString n else toString n

/-- ISO `YYYY-MM-DD` rendering of a civil date (years of interest have four
digits). -/
def isoOfDate : ℤ × ℤ × ℤ → String
  | (y, m, d) => toString y ++ "-" ++ pad2 m ++ "-" ++ pad2 d

/-- The UTC calendar date of a Unix timestamp as an ISO string:
`datetime.utcfromtimestamp(ts).date().isoformat()`. -/
def utcDateIso (ts : ℤ) : String := isoOfDate (civilFromDays (Int.fdiv ts 86400))

/-- Source line 158: the date assigned to a row — the timestamp's UTC calendar
date when `ts > 0`, else the fixed string `"1970-01-01"`. -/
def dateIsoOfTs (ts : ℤ) : String := if 0 < ts then utcDateIso ts else "1970-01-01"

/-- A raw daily record as returned by the volume endpoint: the three fields the
program reads (`r.get` of a missing key yields `None`, i.e. `.pnone`). -/
structure RawRecord where
  date : PyVal
  depositUSD : PyVal
  withdrawUSD : PyVal
deriving DecidableEq, Repr

/-- A canonical daily row (source lines 163–171). -/
structure DailyRow where
  bridgeId : ℤ
  bridgeName : String
  date : String
  depositUSD : ℚ
  withdrawUSD : ℚ
  totalUSD : ℚ
  netUSD : ℚ
deriving DecidableEq, Repr

/-- Display name: `name_map.get(bid, f"bridge-{bid}")`. -/
def nameOf (nameMap : ℤ → Option String) (bid : ℤ) : String :=
  (nameMap bid).getD ("bridge-" ++ toString bid)

/-- One DailyRow built from a raw record (source lines 153–171). -/
def mkDailyRow (bid : ℤ) (name : String) (r : RawRecord) : DailyRow :=
  let dep := to_float (nz r.depositUSD (.pint 0))
  let wd := to_float (nz r.withdrawUSD (.pint 0))
  { bridgeId := bid
    bridgeName := name
    date := dateIsoOfTs (tsOf r.date)
    depositUSD := dep
    withdrawUSD := wd
    totalUSD := dep + wd
    netUSD := dep - wd }

/-- collect_daily_rows (source lines 136–178). The per-bridge fetch is passed
in as `oracle`: `.ok hist` is a successful `fetch_bridge_daily_all`, `.error e`
a raised exception. Returns the rows in id order together with the warnings
printed to stderr, as `(bridgeId, error)` pairs. -/
def collect_daily_rows (ids : List ℤ) (nameMap : ℤ → Option String)
    (oracle : ℤ → Except String (List RawRecord)) :
    List DailyRow × List (ℤ × String) :=
  match ids with
  | [] => ([], [])
  | bid :: rest =>
    let tl := collect_daily_rows rest nameMap oracle
    match oracle bid with
    | .ok hist => (hist.map (mkDailyRow bid (nameOf nameMap bid)) ++ tl.1, tl.2)
    | .error e => (tl.1, (bid, e) :: tl.2)

/-- A dataframe row after the `month` and `year` columns are added (source
lines 278–281). For the valid ISO dates the collector emits,
`strftime("%Y-%m")` is the first seven characters and `.dt.year` the leading
four-digit number. -/
structure DFRow where
  bridgeId : ℤ
  bridgeName : String
  month : String
  year : ℤ
  depositUSD : ℚ
  withdrawUSD : ℚ
  totalUSD : ℚ
  netUSD : ℚ
deriving DecidableEq, Repr

/-- Month column of a daily row: `pd.to_datetime(date).dt.strftime("%Y-%m")`,
which for a valid `YYYY-MM-DD` string is its first seven characters. -/
def monthOfDate (s : String) : String := String.mk (s.toList.take 7)

/-- Year column of a daily row: `pd.to_datetime(date).dt.year`, the leading
four-digit number of a valid `YYYY-MM-DD` string. -/
def yearOfDate (s : String) : ℤ := (digitsToNat (s.toList.take 4) : ℤ)

/-- DataFrame construction from the collected rows (source lines 278–281). -/
def toDFRow (r : DailyRow) : DFRow :=
  { bridgeId := r.bridgeId
    bridgeName := r.bridgeName
    month := monthOfDate r.date
    year := yearOfDate r.date
    depositUSD := r.depositUSD
    withdrawUSD := r.withdrawUSD
    totalUSD := r.totalUSD
    netUSD := r.netUSD }

/-- Lexicographic order on character lists, as Python compares strings. -/
def listLtChar : List Char → List Char → Bool
  | [], [] => false
  | [], _ :: _ => true
  | _ :: _, [] => false
  | a :: as, b :: bs => if a < b then true else if b < a then false else listLtChar as bs

/-- Python `a < b` on strings (lexicographic by code point). -/
def strLt (a b : String) : Bool := listLtChar a.toList b.toList

/-- Python `a <= b` on strings. -/
def strLe (a b : String) : Bool := !strLt b a

/-- The date-range filter of source lines 283–286: keep rows whose month
string is `>= startMonth` and `<= endMonth`, each bound applied only when the
argument is a nonempty (truthy) string. -/
def filterByRange (startMonth endMonth : String) (df : List DFRow) : List DFRow :=
  let df1 := if startMonth ≠ "" then df.filter (fun r => strLe startMonth r.month) else df
  if endMonth ≠ "" then df1.filter (fun r => strLe r.month endMonth) else df1

/-- A monthly or yearly aggregate row; `P` is the period column type
(`String` months, `ℤ` years). -/
structure AggRow (P : Type) where
  period : P
  bridgeId : ℤ
  bridgeName : String
  depositUSD : ℚ
  withdrawUSD : ℚ
  totalUSD : ℚ
  netUSD : ℚ
deriving DecidableEq, Repr

/-- One aggregate row: the group key `(bridgeId, bridgeName, period)` together
with the sum of each USD column over the group's daily rows. -/
def buildAgg {P : Type} (k : ℤ × String × P) (fib : List DFRow) : AggRow P :=
  { period := k.2.2
    bridgeId := k.1
    bridgeName := k.2.1
    depositUSD := (fib.map (fun r => r.depositUSD)).sum
    withdrawUSD := (fib.map (fun r => r.withdrawUSD)).sum
    totalUSD := (fib.map (fun r => r.totalUSD)).sum
    netUSD := (fib.map (fun r => r.netUSD)).sum }

/-- groupby((bridgeId, bridgeName, period)).agg(sum of each USD column)
(source lines 183–195). One aggregate per distinct key; the verified
properties do not depend on the order pandas lists the groups in. -/
def groupAgg {P : Type} [DecidableEq P] (periodOf : DFRow → P) (rows : List DFRow) :
    List (AggRow P) :=
  ((rows.map (fun r => (r.bridgeId, r.bridgeName, periodOf r))).dedup).map
    (fun k => buildAgg k
      (rows.filter (fun r => decide ((r.bridgeId, r.bridgeName, periodOf r) = k))))

/-- The sort key of sort_values([periodCol, "totalUSD"], ascending=[True,
False]): `a` before `b` when `a`'s period is earlier, or periods are equal and
`a`'s totalUSD is at least `b`'s. -/
def lexLe {P : Type} [DecidableEq P] (pLt : P → P → Bool) (a b : AggRow P) : Bool :=
  pLt a.period b.period || (a.period == b.period && decide (b.totalUSD ≤ a.totalUSD))

/-- sort_values([periodCol, "totalUSD"], ascending=[True, False]): sort by
period ascending and, within a period, by totalUSD descending. Any correct
sort by this key models the pandas call; sorts differ only in the relative
order of tied rows, on which no verified property depends. -/
def sortPeriodTotal {P : Type} [DecidableEq P] (pLt : P → P → Bool)
    (t : List (AggRow P)) : List (AggRow P) :=
  t.insertionSort (fun a b => lexLe pLt a b = true)

/-- groupby(periodCol, sort=False).head(n): keep, in order, the first `n` rows
of each period group; `cnt` counts rows of each period already kept. -/
def headPerGroup {P : Type} [DecidableEq P] (n : ℕ) (cnt : P → ℕ) :
    List (AggRow P) → List (AggRow P)
  | [] => []
  | r :: rs =>
    if cnt r.period < n then
      r :: headPerGroup n (fun p => if p = r.period then cnt r.period + 1 else cnt p) rs
    else headPerGroup n cnt rs

/-- top_n_per_period (source lines 201–213), also inlined at lines 301–305 and
324–328 of `main`: sort by (period asc, totalUSD desc) and take the first `n`
rows of each period group. -/
def top_n_per_period {P : Type} [DecidableEq P] (pLt : P → P → Bool)
    (t : List (AggRow P)) (n : ℕ) : List (AggRow P) :=
  headPerGroup n (fun _ => 0) (sortPeriodTotal pLt t)

/-- Round half to even, the tie rule of IEEE and of `pandas.Series.round`. -/
def roundHalfEven (q : ℚ) : ℤ :=
  if q - ⌊q⌋ < 1 / 2 then ⌊q⌋
  else if 1 / 2 < q - ⌊q⌋ then ⌊q⌋ + 1
  else if ⌊q⌋ % 2 = 0 then ⌊q⌋ else ⌊q⌋ + 1

/-- Rounding to two decimal places, `Series.round(2)`. -/
def round2 (q : ℚ) : ℚ := (roundHalfEven (q * 100) : ℚ) / 100

/-- monthly.groupby(period)[totalUSD].sum() (source lines 307–310 and
330–333): one `(period, total)` pair per distinct period of the table. -/
def periodTotals {P : Type} [DecidableEq P] (t : List (AggRow P)) : List (P × ℚ) :=
  ((t.map (fun r => r.period)).dedup).map
    (fun p => (p, ((t.filter (fun r => decide (r.period = p))).map (fun r => r.totalUSD)).sum))

/-- Left-merge lookup of a period's total: `none` when the period is absent
from the totals table (the merge would produce NaN there). -/
def lookupTotal {P : Type} [DecidableEq P] (tbl : List (P × ℚ)) (p : P) : Option ℚ :=
  match tbl.find? (fun kv => decide (kv.1 = p)) with
  | some kv => some kv.2
  | Option.none => Option.none

/-- The shares column of source lines 313–315: `(totalUSD / periodTotal) *
100`, then `fillna(0.0)`, then `round(2)`. The result is an `Option ℚ` whose
`none` stands for a non-finite float: a missing merge partner gives NaN which
`fillna` turns into 0; a zero denominator gives NaN (total 0) or ±inf (total
nonzero), and `fillna` only replaces the NaN case. -/
def sharesVal (t : ℚ) : Option ℚ → Option ℚ
  | Option.none => some 0
  | some T =>
    if T = 0 then (if t = 0 then some 0 else Option.none)
    else some (round2 (t / T * 100))

/-- A top-N row after the shares column is attached. -/
structure TopEntry (P : Type) extends AggRow P where
  shares : Option ℚ
deriving DecidableEq, Repr

/-- merge(periodTotals) followed by the shares computation
(source lines 312–316 and 335–339). -/
def addShares {P : Type} [DecidableEq P] (topn : List (AggRow P))
    (totals : List (P × ℚ)) : List (TopEntry P) :=
  topn.map (fun r =>
    { toAggRow := r, shares := sharesVal r.totalUSD (lookupTotal totals r.period) })

/-- aggregate_monthly_yearly (source lines 181–198): monthly and yearly
grouped sums, the yearly table additionally sorted by (year asc, totalUSD
desc). -/
def aggregate_monthly_yearly (df : List DFRow) :
    List (AggRow String) × List (AggRow ℤ) :=
  (groupAgg (fun r => r.month) df,
   sortPeriodTotal (fun a b => decide (a < b)) (groupAgg (fun r => r.year) df))

/-- The monthly top-N leaderboard with shares, as built in `main`
(source lines 301–316). -/
def monthlyTopWithShares (monthly : List (AggRow String)) (n : ℕ) :
    List (TopEntry String) :=
  addShares (top_n_per_period strLt monthly n) (periodTotals monthly)

/-- The yearly top-N leaderboard with shares, as built in `main`
(source lines 324–339). -/
def yearlyTopWithShares (yearly : List (AggRow ℤ)) (n : ℕ) :
    List (TopEntry ℤ) :=
  addShares (top_n_per_period (fun a b => decide (a < b)) yearly n) (periodTotals yearly)

/-- The full-period total volume of period `p` in an aggregate table: the sum
of `totalUSD` over all bridges of that period, not only the selected top N. -/
def periodTotalUSD {P : Type} [DecidableEq P] (t : List (AggRow P)) (p : P) : ℚ :=
  ((t.filter (fun r => decide (r.period = p))).map (fun r => r.totalUSD)).sum

/-- Outcome of a run of `main`: an early `sys.exit(code)` or a successful
completion, each recording the output files written up to that point, in
order. -/
inductive RunOutcome where
  | earlyExit (code : ℕ) (filesWritten : List String)
  | success (filesWritten : List String)
deriving DecidableEq, Repr

/-- Control flow of `main` (source lines 246–344) for its exit decisions and
file writes. An empty catalog exits with code 2 before anything is written
(line 250); the daily CSV is then written (line 270); an empty row collection
exits with code 1 only after that write (lines 273–275); otherwise the four
aggregate CSVs follow. A catalog fetch exception propagates out of `main`
uncaught and is not an outcome of this function. -/
def mainRun (overview : List (ℤ × String))
    (oracle : ℤ → Except String (List RawRecord))
    (_startMonth _endMonth : String) (topN : ℕ) : RunOutcome :=
  if overview.isEmpty then .earlyExit 2 []
  else
    let ids := overview.map (fun b => b.1)
    let nameMap := fun bid => (overview.find? (fun b => decide (b.1 = bid))).map (fun b => b.2)
    let rows := (collect_daily_rows ids nameMap oracle).1
    if rows.isEmpty then .earlyExit 1 ["all_bridges_daily.csv"]
    else
      .success ["all_bridges_daily.csv", "bridges_monthly.csv", "bridges_yearly.csv",
                "bridges_monthly_top_" ++ toString topN ++ ".csv",
                "bridges_yearly_top_" ++ toString topN ++ ".csv"]

/-- C1 counterexample: the claimed value `toFloat("1,234.56") = 1234.56` is
false — the second normalization attempt (drop dots, comma to dot) turns
`"1,234.56"` into `"1.23456"` and parses first. -/
theorem C1_counterexample : to_float (.pstr ("1,234.56")) ≠ 1234.56 := by decide

/-- C1 (amended): toFloat satisfies the spec's test values except on
`"1,234.56"`, where the second separator-normalization attempt wins and the
result is 1.23456; the three attempts are tried in the stated order with the
first successful parse winning. -/
theorem C1_to_float_values :
    to_float (.pstr ("1.234,56")) = 1234.56 ∧
    to_float (.pstr ("1,234.56")) = 1.23456 ∧
    to_float (.pstr ("")) = 0 ∧
    to_float .pnone = 0 ∧
    to_float (.pstr ("abc")) = 0 := by decide

theorem collect_rows_sourced (ids : List ℤ) (nameMap : ℤ → Option String)
    (oracle : ℤ → Except String (List RawRecord)) (r : DailyRow)
    (hr : r ∈ (collect_daily_rows ids nameMap oracle).1) :
    ∃ bid hist raw, oracle bid = .ok hist ∧ raw ∈ hist ∧
      r = mkDailyRow bid (nameOf nameMap bid) raw ∧ bid ∈ ids := by
  induction ids with
  | nil => simp [collect_daily_rows] at hr
  | cons bid rest ih =>
    simp only [collect_daily_rows] at hr
    cases h : oracle bid with
    | ok hist =>
      rw [h] at hr
      simp only [List.mem_append, List.mem_map] at hr
      rcases hr with ⟨raw, hraw, rfl⟩ | hr
      · exact ⟨bid, hist, raw, h, hraw, rfl, List.mem_cons_self _ _⟩
      · obtain ⟨b, hs, rw, h1, h2, h3, h4⟩ := ih hr
        exact ⟨b, hs, rw, h1, h2, h3, List.mem_cons_of_mem _ h4⟩
    | error e =>
      rw [h] at hr
      obtain ⟨b, hs, rw, h1, h2, h3, h4⟩ := ih hr
      exact ⟨b, hs, rw, h1, h2, h3, List.mem_cons_of_mem _ h4⟩

theorem collect_warning_of_error (ids : List ℤ) (nameMap : ℤ → Option String)
    (oracle : ℤ → Except String (List RawRecord)) (b : ℤ) (e : String)
    (hb : b ∈ ids) (he : oracle b = .error e) :
    (b, e) ∈ (collect_daily_rows ids nameMap oracle).2 := by
  induction ids with
  | nil => cases hb
  | cons bid rest ih =>
    simp only [collect_daily_rows]
    rcases List.mem_cons.mp hb with rfl | hb2
    · rw [he]; exact List.mem_cons_self _ _
    · cases h : oracle bid with
      | ok hist => exact ih hb2
      | error e2 => exact List.mem_cons_of_mem _ (ih hb2)

theorem collect_ok_rows_mem (ids : List ℤ) (nameMap : ℤ → Option String)
    (oracle : ℤ → Except String (List RawRecord)) (a : ℤ)
    (hist : List RawRecord) (ha : a ∈ ids) (hok : oracle a = .ok hist) :
    ∀ raw ∈ hist, mkDailyRow a (nameOf nameMap a) raw ∈
      (collect_daily_rows ids nameMap oracle).1 := by
  intro raw hraw
  induction ids with
  | nil => cases ha
  | cons bid rest ih =>
    simp only [collect_daily_rows]
    rcases List.mem_cons.mp ha with rfl | ha2
    · rw [hok]
      exact List.mem_append_left _ (List.mem_map_of_mem _ hraw)
    · cases h : oracle bid with
      | ok hist2 => exact List.mem_append_right _ (ih ha2)
      | error e2 => exact ih ha2

/-- C6: every DailyRow produced by the collector satisfies
totalUSD = depositUSD + withdrawUSD and netUSD = depositUSD − withdrawUSD,
by construction, whatever the input records are. -/
theorem C6_daily_row_invariant (ids : List ℤ) (nameMap : ℤ → Option String)
    (oracle : ℤ → Except String (List RawRecord)) (r : DailyRow)
    (hr : r ∈ (collect_daily_rows ids nameMap oracle).1) :
    r.totalUSD = r.depositUSD + r.withdrawUSD ∧
    r.netUSD = r.depositUSD - r.withdrawUSD := by
  obtain ⟨bid, hist, raw, _, _, rfl, _⟩ :=
    collect_rows_sourced ids nameMap oracle r hr
  exact ⟨rfl, rfl⟩

theorem C6_daily_row_invariant_witness :
    (mkDailyRow 1 ("A") ⟨.pint 86400, .pfloat 10, .pfloat 4⟩).totalUSD =
        (mkDailyRow 1 ("A") ⟨.pint 86400, .pfloat 10, .pfloat 4⟩).depositUSD +
          (mkDailyRow 1 ("A") ⟨.pint 86400, .pfloat 10, .pfloat 4⟩).withdrawUSD ∧
      (mkDailyRow 1 ("A") ⟨.pint 86400, .pfloat 10, .pfloat 4⟩).netUSD =
        (mkDailyRow 1 ("A") ⟨.pint 86400, .pfloat 10, .pfloat 4⟩).depositUSD -
          (mkDailyRow 1 ("A") ⟨.pint 86400, .pfloat 10, .pfloat 4⟩).withdrawUSD :=
  C6_daily_row_invariant [1] (fun _ => some ("A"))
    (fun _ => .ok [⟨.pint 86400, .pfloat 10, .pfloat 4⟩]) _ (by decide)

/-- C10: any record whose timestamp coerces to an integer ≤ 0 — including
strictly negative pre-1970 timestamps, not only missing, zero or unparsable
ones — is dated "1970-01-01"; the actual UTC calendar date of the negative
timestamp −86400 would have been "1969-12-31". -/
theorem C10_nonpositive_ts_epoch_date (bid : ℤ) (name : String) (raw : RawRecord)
    (h : tsOf raw.date ≤ 0) :
    (mkDailyRow bid name raw).date = "1970-01-01" ∧
      utcDateIso (-86400) = "1969-12-31" := by
  refine ⟨?_, by decide⟩
  show dateIsoOfTs (tsOf raw.date) = "1970-01-01"
  unfold dateIsoOfTs
  rw [if_neg (by omega)]

theorem C10_nonpositive_ts_epoch_date_witness :
    (mkDailyRow 7 ("b") ⟨.pint (-5), .pnone, .pnone⟩).date = "1970-01-01" ∧
      utcDateIso (-86400) = "1969-12-31" :=
  C10_nonpositive_ts_epoch_date 7 ("b") ⟨.pint (-5), .pnone, .pnone⟩ (by decide)

/-- C9: if one bridge's history load fails, the collector records a warning
naming that id, produces no row with that bridgeId, and still returns every
row of every successfully loaded bridge. -/
theorem C9_per_bridge_isolation (ids : List ℤ) (nameMap : ℤ → Option String)
    (oracle : ℤ → Except String (List RawRecord)) (b : ℤ) (e : String)
    (hb : b ∈ ids) (he : oracle b = .error e) :
    (b, e) ∈ (collect_daily_rows ids nameMap oracle).2 ∧
    (∀ r ∈ (collect_daily_rows ids nameMap oracle).1, r.bridgeId ≠ b) ∧
    (∀ a ∈ ids, ∀ hist, oracle a = .ok hist → ∀ raw ∈ hist,
      mkDailyRow a (nameOf nameMap a) raw ∈
        (collect_daily_rows ids nameMap oracle).1) := by
  refine ⟨collect_warning_of_error ids nameMap oracle b e hb he, ?_, ?_⟩
  · intro r hr
    obtain ⟨bid, hist, raw, hok, _, rfl, _⟩ := collect_rows_sourced ids nameMap oracle r hr
    intro hbid
    have : bid = b := hbid
    rw [this, he] at hok
    cases hok
  · intro a ha hist hok raw hraw
    exact collect_ok_rows_mem ids nameMap oracle a hist ha hok raw hraw

theorem C9_per_bridge_isolation_witness :
    ((2 : ℤ), ("Schema Violation" : String)) ∈
      (collect_daily_rows [1, 2] (fun _ => some ("A"))
        (fun bid => if bid = 2 then .error ("Schema Violation")
          else .ok [⟨.pint 86400, .pfloat 10, .pfloat 4⟩])).2 ∧
    (∀ r ∈ (collect_daily_rows [1, 2] (fun _ => some ("A"))
        (fun bid => if bid = 2 then .error ("Schema Violation")
          else .ok [⟨.pint 86400, .pfloat 10, .pfloat 4⟩])).1, r.bridgeId ≠ 2) ∧
    (∀ a ∈ ([1, 2] : List ℤ), ∀ hist,
      (if a = 2 then Except.error ("Schema Violation")
        else Except.ok [(⟨.pint 86400, .pfloat 10, .pfloat 4⟩ : RawRecord)]) = .ok hist →
      ∀ raw ∈ hist, mkDailyRow a (nameOf (fun _ => some ("A")) a) raw ∈
        (collect_daily_rows [1, 2] (fun _ => some ("A"))
          (fun bid => if bid = 2 then .error ("Schema Violation")
            else .ok [⟨.pint 86400, .pfloat 10, .pfloat 4⟩])).1) :=
  C9_per_bridge_isolation [1, 2] (fun _ => some ("A"))
    (fun bid => if bid = 2 then .error ("Schema Violation")
      else .ok [⟨.pint 86400, .pfloat 10, .pfloat 4⟩]) 2 ("Schema Violation")
    (by decide) (by rfl)

/-- C2 counterexample: with a nonempty catalog and a collector that yields
zero rows, the run does exit with code 1, but only after the daily CSV has
already been written — not before any output file, as the claim states. -/
theorem C2_counterexample :
    mainRun [(1, ("A"))] (fun _ => .error ("boom")) ("2022-10") ("2025-08") 5 ≠
      .earlyExit 1 [] ∧
    mainRun [(1, ("A"))] (fun _ => .error ("boom")) ("2022-10") ("2025-08") 5 =
      .earlyExit 1 ["all_bridges_daily.csv"] := by decide

/-- C2 (amended): when the catalog loads nonempty but zero daily rows are
collected, the run exits with code 1 — distinct from the empty-catalog exit
code 2 — after the daily CSV, and only it, has been written; the four
aggregate outputs are never produced. -/
theorem C2_zero_rows_exit (overview : List (ℤ × String))
    (oracle : ℤ → Except String (List RawRecord)) (s e : String) (n : ℕ)
    (hov : overview ≠ [])
    (hrows : (collect_daily_rows (overview.map (fun b => b.1))
      (fun bid => (overview.find? (fun b => decide (b.1 = bid))).map (fun b => b.2))
      oracle).1 = []) :
    mainRun overview oracle s e n = .earlyExit 1 ["all_bridges_daily.csv"] ∧
      (1 : ℕ) ≠ 2 := by
  refine ⟨?_, by decide⟩
  unfold mainRun
  rw [if_neg (by simpa using hov)]
  simp only [hrows, List.isEmpty_nil, if_true]

theorem C2_zero_rows_exit_witness :
    mainRun [(1, ("A"))] (fun _ => .error ("boom")) ("2022-10") ("2025-08") 5 =
        .earlyExit 1 ["all_bridges_daily.csv"] ∧ (1 : ℕ) ≠ 2 :=
  C2_zero_rows_exit [(1, ("A"))] (fun _ => .error ("boom")) ("2022-10") ("2025-08") 5
    (by decide) (by decide)

theorem listLtChar_iff (as bs : List Char) : listLtChar as bs = true ↔ as.lt bs := by
  induction as generalizing bs with
  | nil =>
    cases bs with
    | nil => simp [listLtChar]; nofun
    | cons b t => simp [listLtChar]; exact .nil b t
  | cons a as ih =>
    cases bs with
    | nil => simp [listLtChar]; nofun
    | cons b t =>
      unfold listLtChar
      by_cases h1 : a < b
      · simp [h1]
        exact .head _ _ h1
      · rw [if_neg h1]
        by_cases h2 : b < a
        · simp [h2]
          intro H
          cases H with
          | head _ _ hab => exact h1 hab
          | tail _ hba _ => exact hba h2
        · rw [if_neg h2]
          rw [ih t]
          constructor
          · intro H; exact .tail h1 h2 H
          · intro H
            cases H with
            | head _ _ hab => exact absurd hab h1
            | tail _ _ htl => exact htl

theorem strLt_iff (a b : String) : strLt a b = true ↔ a < b := by
  rw [String.lt_iff_toList_lt]
  show _ ↔ List.Lex (fun x y => x < y) a.toList b.toList
  rw [← List.lt_iff_lex_lt]
  exact listLtChar_iff a.toList b.toList

theorem strLe_iff (a b : String) : strLe a b = true ↔ a ≤ b := by
  rw [← not_lt, ← strLt_iff b a]
  unfold strLe
  cases strLt b a <;> simp

/-- A sample dataframe row with a given month, used in concrete instances. -/
def sampleDF (m : String) : DFRow :=
  { bridgeId := 1, bridgeName := "A", month := m, year := 2022, depositUSD := 1,
    withdrawUSD := 0, totalUSD := 1, netUSD := 1 }

/-- C7: the model's lexicographic string order agrees with the mathematical
one; with nonempty bounds, a daily row survives the date filter exactly when
its "YYYY-MM" month string lies within [startMonth, endMonth] inclusive; and
concretely, for startMonth "2022-10" a month-"2022-09" row is excluded while a
month-"2022-10" row is included. -/
theorem C7_month_filter :
    (∀ a b : String, strLe a b = true ↔ a ≤ b) ∧
    (∀ (s e : String) (df : List DFRow) (r : DFRow), s ≠ "" → e ≠ "" →
      (r ∈ filterByRange s e df ↔
        r ∈ df ∧ strLe s r.month = true ∧ strLe r.month e = true)) ∧
    filterByRange ("2022-10") ("2025-08")
        [sampleDF ("2022-09"), sampleDF ("2022-10")] = [sampleDF ("2022-10")] := by
  refine ⟨strLe_iff, ?_, by decide⟩
  intro s e df r hs he
  unfold filterByRange
  rw [if_pos hs, if_pos he]
  simp only [List.mem_filter]
  tauto

theorem C7_month_filter_witness :
    sampleDF ("2022-10") ∈ filterByRange ("2022-10") ("2025-08")
        [sampleDF ("2022-09"), sampleDF ("2022-10")] ∧
    sampleDF ("2022-09") ∉ filterByRange ("2022-10") ("2025-08")
        [sampleDF ("2022-09"), sampleDF ("2022-10")] :=
  ⟨(C7_month_filter.2.1 ("2022-10") ("2025-08")
      [sampleDF ("2022-09"), sampleDF ("2022-10")] (sampleDF ("2022-10"))
      (by decide) (by decide)).mpr ⟨by decide, by decide, by decide⟩,
   fun h => by
    have := (C7_month_filter.2.1 ("2022-10") ("2025-08")
      [sampleDF ("2022-09"), sampleDF ("2022-10")] (sampleDF ("2022-09"))
      (by decide) (by decide)).mp h
    exact absurd this.2.1 (by decide)⟩

theorem sum_map_filter_add {α : Type} (p : α → Bool) (f : α → ℚ) (l : List α) :
    ((l.filter p).map f).sum + ((l.filter (fun a => !p a)).map f).sum = (l.map f).sum := by
  induction l with
  | nil => simp
  | cons a t ih =>
    cases h : p a with
    | true =>
      rw [List.filter_cons_of_pos (by simp [h]), List.filter_cons_of_neg (by simp [h])]
      simp only [List.map_cons, List.sum_cons]
      rw [← ih]; ring
    | false =>
      rw [List.filter_cons_of_neg (by simp [h]), List.filter_cons_of_pos (by simp [h])]
      simp only [List.map_cons, List.sum_cons]
      rw [← ih]; ring

theorem sum_fibers {α K : Type} [DecidableEq K] (key : α → K) (f : α → ℚ) :
    ∀ (ks : List K) (rows : List α), ks.Nodup → (∀ r ∈ rows, key r ∈ ks) →
      (ks.map (fun k => ((rows.filter (fun r => decide (key r = k))).map f).sum)).sum
        = (rows.map f).sum := by
  intro ks
  induction ks with
  | nil =>
    intro rows _ hcov
    cases rows with
    | nil => simp
    | cons r t => exact absurd (hcov r (List.mem_cons_self r t)) (by simp)
  | cons k ks ih =>
    intro rows hnd hcov
    have hk : k ∉ ks := (List.nodup_cons.mp hnd).1
    have hnd2 : ks.Nodup := (List.nodup_cons.mp hnd).2
    have hfib : ∀ k2 ∈ ks,
        rows.filter (fun r => decide (key r = k2)) =
          (rows.filter (fun r => !decide (key r = k))).filter
            (fun r => decide (key r = k2)) := by
      intro k2 hk2
      rw [List.filter_filter]
      apply List.filter_congr
      intro a _
      by_cases h : key a = k2
      · have hne : ¬ k2 = k := fun hc => hk (hc ▸ hk2)
        simp [h, hne]
      · simp [h]
    have hcov2 : ∀ r ∈ rows.filter (fun r => !decide (key r = k)), key r ∈ ks := by
      intro r hr
      obtain ⟨hr1, hr2⟩ := List.mem_filter.mp hr
      rcases List.mem_cons.mp (hcov r hr1) with h | h
      · simp [h] at hr2
      · exact h
    have hmap : ks.map (fun k2 => ((rows.filter (fun r => decide (key r = k2))).map f).sum)
        = ks.map (fun k2 => (((rows.filter (fun r => !decide (key r = k))).filter
            (fun r => decide (key r = k2))).map f).sum) :=
      List.map_congr_left (fun k2 hk2 => by rw [hfib k2 hk2])
    rw [List.map_cons, List.sum_cons, hmap,
      ih (rows.filter (fun r => !decide (key r = k))) hnd2 hcov2]
    exact sum_map_filter_add (fun r => decide (key r = k)) f rows

theorem groupAgg_conserves {P : Type} [DecidableEq P] (periodOf : DFRow → P)
    (df : List DFRow) (p : P) (f : DFRow → ℚ) (g : AggRow P → ℚ)
    (hg : ∀ k fib, g (buildAgg k fib) = (fib.map f).sum) :
    (((groupAgg periodOf df).filter (fun a => decide (a.period = p))).map g).sum
      = ((df.filter (fun r => decide (periodOf r = p))).map f).sum := by
  unfold groupAgg
  rw [List.filter_map, List.map_map]
  have hkey : ((fun a => decide (AggRow.period a = p)) ∘ fun k =>
      buildAgg k (df.filter (fun r => decide ((r.bridgeId, r.bridgeName, periodOf r) = k))))
      = fun k : ℤ × String × P => decide (k.2.2 = p) := by
    funext k
    rfl
  rw [hkey]
  have hmapeq : List.map (g ∘ fun k =>
      buildAgg k (df.filter (fun r => decide ((r.bridgeId, r.bridgeName, periodOf r) = k))))
        (((df.map (fun r => (r.bridgeId, r.bridgeName, periodOf r))).dedup).filter
          (fun k : ℤ × String × P => decide (k.2.2 = p)))
      = List.map (fun k : ℤ × String × P =>
          (((df.filter (fun r => decide (periodOf r = p))).filter
            (fun r => decide ((r.bridgeId, r.bridgeName, periodOf r) = k))).map f).sum)
        (((df.map (fun r => (r.bridgeId, r.bridgeName, periodOf r))).dedup).filter
          (fun k : ℤ × String × P => decide (k.2.2 = p))) := by
    apply List.map_congr_left
    intro k hkmem
    have hkp2 : k.2.2 = p := of_decide_eq_true (List.mem_filter.mp hkmem).2
    show g (buildAgg k (df.filter (fun r =>
      decide ((r.bridgeId, r.bridgeName, periodOf r) = k)))) = _
    rw [hg]
    have hfibeq : df.filter (fun r => decide ((r.bridgeId, r.bridgeName, periodOf r) = k))
        = (df.filter (fun r => decide (periodOf r = p))).filter
            (fun r => decide ((r.bridgeId, r.bridgeName, periodOf r) = k)) := by
      rw [List.filter_filter]
      apply List.filter_congr
      intro a _
      by_cases h : (a.bridgeId, a.bridgeName, periodOf a) = k
      · have hpa : periodOf a = p := by
          have h3 : periodOf a = k.2.2 := congrArg (fun x : ℤ × String × P => x.2.2) h
          rw [h3, hkp2]
        simp [h, hpa]
      · simp [h]
    rw [hfibeq]
  rw [hmapeq]
  apply sum_fibers (fun r => (r.bridgeId, r.bridgeName, periodOf r)) f
  · exact (List.nodup_dedup _).filter _
  · intro r hr
    obtain ⟨hr1, hr2⟩ := List.mem_filter.mp hr
    exact List.mem_filter.mpr ⟨List.mem_dedup.mpr (List.mem_map_of_mem _ hr1), hr2⟩

theorem sortPeriodTotal_perm {P : Type} [DecidableEq P] (pLt : P → P → Bool)
    (t : List (AggRow P)) : (sortPeriodTotal pLt t).Perm t :=
  List.perm_insertionSort _ t

theorem sorted_filter_sum {P : Type} [DecidableEq P] (pLt : P → P → Bool)
    (t : List (AggRow P)) (pred : AggRow P → Bool) (g : AggRow P → ℚ) :
    (((sortPeriodTotal pLt t).filter pred).map g).sum = ((t.filter pred).map g).sum :=
  (((sortPeriodTotal_perm pLt t).filter pred).map g).sum_eq

/-- The dataframe entering aggregation (source lines 278–289): month and year
columns added to each daily row, then the date-range filter. The
`pd.to_numeric(...).fillna(0.0)` pass is a no-op in this model because every
USD value is already a number. -/
def pipelineDF (rows : List DailyRow) (s e : String) : List DFRow :=
  filterByRange s e (rows.map toDFRow)

/-- C4: aggregation conserves volume. For every month `pm` and year `py`, each
of the four USD columns summed over that period's aggregate rows equals the
same column summed over the filtered daily rows belonging to that period. -/
theorem C4_aggregation_conserves (rows : List DailyRow) (s e : String)
    (pm : String) (py : ℤ) :
    ((((aggregate_monthly_yearly (pipelineDF rows s e)).1.filter
        (fun a => decide (a.period = pm))).map (fun a => a.totalUSD)).sum =
      (((pipelineDF rows s e).filter (fun r => decide (r.month = pm))).map
        (fun r => r.totalUSD)).sum) ∧
    ((((aggregate_monthly_yearly (pipelineDF rows s e)).1.filter
        (fun a => decide (a.period = pm))).map (fun a => a.depositUSD)).sum =
      (((pipelineDF rows s e).filter (fun r => decide (r.month = pm))).map
        (fun r => r.depositUSD)).sum) ∧
    ((((aggregate_monthly_yearly (pipelineDF rows s e)).1.filter
        (fun a => decide (a.period = pm))).map (fun a => a.withdrawUSD)).sum =
      (((pipelineDF rows s e).filter (fun r => decide (r.month = pm))).map
        (fun r => r.withdrawUSD)).sum) ∧
    ((((aggregate_monthly_yearly (pipelineDF rows s e)).1.filter
        (fun a => decide (a.period = pm))).map (fun a => a.netUSD)).sum =
      (((pipelineDF rows s e).filter (fun r => decide (r.month = pm))).map
        (fun r => r.netUSD)).sum) ∧
    ((((aggregate_monthly_yearly (pipelineDF rows s e)).2.filter
        (fun a => decide (a.period = py))).map (fun a => a.totalUSD)).sum =
      (((pipelineDF rows s e).filter (fun r => decide (r.year = py))).map
        (fun r => r.totalUSD)).sum) ∧
    ((((aggregate_monthly_yearly (pipelineDF rows s e)).2.filter
        (fun a => decide (a.period = py))).map (fun a => a.depositUSD)).sum =
      (((pipelineDF rows s e).filter (fun r => decide (r.year = py))).map
        (fun r => r.depositUSD)).sum) ∧
    ((((aggregate_monthly_yearly (pipelineDF rows s e)).2.filter
        (fun a => decide (a.period = py))).map (fun a => a.withdrawUSD)).sum =
      (((pipelineDF rows s e).filter (fun r => decide (r.year = py))).map
        (fun r => r.withdrawUSD)).sum) ∧
    ((((aggregate_monthly_yearly (pipelineDF rows s e)).2.filter
        (fun a => decide (a.period = py))).map (fun a => a.netUSD)).sum =
      (((pipelineDF rows s e).filter (fun r => decide (r.year = py))).map
        (fun r => r.netUSD)).sum) := by
  have hy : (aggregate_monthly_yearly (pipelineDF rows s e)).2 =
      sortPeriodTotal (fun a b => decide (a < b))
        (groupAgg (fun r => r.year) (pipelineDF rows s e)) := rfl
  refine ⟨?_, ?_, ?_, ?_, ?_, ?_, ?_, ?_⟩
  · exact groupAgg_conserves (fun r => r.month) _ pm _ _ (fun k fib => rfl)
  · exact groupAgg_conserves (fun r => r.month) _ pm _ _ (fun k fib => rfl)
  · exact groupAgg_conserves (fun r => r.month) _ pm _ _ (fun k fib => rfl)
  · exact groupAgg_conserves (fun r => r.month) _ pm _ _ (fun k fib => rfl)
  · rw [hy, sorted_filter_sum]
    exact groupAgg_conserves (fun r => r.year) _ py _ _ (fun k fib => rfl)
  · rw [hy, sorted_filter_sum]
    exact groupAgg_conserves (fun r => r.year) _ py _ _ (fun k fib => rfl)
  · rw [hy, sorted_filter_sum]
    exact groupAgg_conserves (fun r => r.year) _ py _ _ (fun k fib => rfl)
  · rw [hy, sorted_filter_sum]
    exact groupAgg_conserves (fun r => r.year) _ py _ _ (fun k fib => rfl)

theorem strLt_false_iff (a b : String) : strLt a b = false ↔ ¬ a < b := by
  rw [← strLt_iff a b]
  cases strLt a b <;> simp

theorem lexLe_total {P : Type} [DecidableEq P] (pLt : P → P → Bool)
    (hA : ∀ x y, pLt x y = false → pLt y x = false → x = y) (a b : AggRow P) :
    (lexLe pLt a b || lexLe pLt b a) = true := by
  simp only [lexLe, Bool.or_eq_true, Bool.and_eq_true, beq_iff_eq, decide_eq_true_eq]
  cases h1 : pLt a.period b.period with
  | true => exact Or.inl (Or.inl rfl)
  | false =>
    cases h2 : pLt b.period a.period with
    | true => exact Or.inr (Or.inl rfl)
    | false =>
      have hpp := hA _ _ h1 h2
      rcases le_total a.totalUSD b.totalUSD with h | h
      · exact Or.inr (Or.inr ⟨hpp.symm, h⟩)
      · exact Or.inl (Or.inr ⟨hpp, h⟩)

theorem lexLe_trans {P : Type} [DecidableEq P] (pLt : P → P → Bool)
    (hT : ∀ x y z, pLt x y = true → pLt y z = true → pLt x z = true)
    (a b c : AggRow P) (hab : lexLe pLt a b = true) (hbc : lexLe pLt b c = true) :
    lexLe pLt a c = true := by
  simp only [lexLe, Bool.or_eq_true, Bool.and_eq_true, beq_iff_eq,
    decide_eq_true_eq] at hab hbc ⊢
  rcases hab with h1 | ⟨hp1, ht1⟩
  · rcases hbc with h2 | ⟨hp2, _⟩
    · exact Or.inl (hT _ _ _ h1 h2)
    · exact Or.inl (hp2 ▸ h1)
  · rcases hbc with h2 | ⟨hp2, ht2⟩
    · exact Or.inl (hp1 ▸ h2)
    · exact Or.inr ⟨hp1.trans hp2, le_trans ht2 ht1⟩

theorem sortPeriodTotal_sorted {P : Type} [DecidableEq P] (pLt : P → P → Bool)
    (hT : ∀ x y z, pLt x y = true → pLt y z = true → pLt x z = true)
    (hA : ∀ x y, pLt x y = false → pLt y x = false → x = y)
    (t : List (AggRow P)) :
    (sortPeriodTotal pLt t).Pairwise (fun a b => lexLe pLt a b = true) := by
  haveI : IsTotal (AggRow P) (fun a b => lexLe pLt a b = true) :=
    ⟨fun a b => by
      rcases Bool.or_eq_true_iff.mp (lexLe_total pLt hA a b) with h | h
      · exact Or.inl h
      · exact Or.inr h⟩
  haveI : IsTrans (AggRow P) (fun a b => lexLe pLt a b = true) :=
    ⟨fun a b c => lexLe_trans pLt hT a b c⟩
  exact List.sorted_insertionSort _ t

theorem headPerGroup_filter {P : Type} [DecidableEq P] (n : ℕ) :
    ∀ (l : List (AggRow P)) (cnt : P → ℕ) (p : P),
      (headPerGroup n cnt l).filter (fun r => decide (r.period = p)) =
        (l.filter (fun r => decide (r.period = p))).take (n - cnt p) := by
  intro l
  induction l with
  | nil => intro cnt p; simp [headPerGroup]
  | cons r rs ih =>
    intro cnt p
    unfold headPerGroup
    by_cases hc : cnt r.period < n
    · rw [if_pos hc]
      by_cases hp : r.period = p
      · subst hp
        rw [List.filter_cons_of_pos (by simp), List.filter_cons_of_pos (by simp), ih]
        have hm : n - cnt r.period = (n - (cnt r.period + 1)) + 1 := by omega
        simp [hm, List.take_succ_cons]
      · rw [List.filter_cons_of_neg (by simp [hp]), List.filter_cons_of_neg (by simp [hp]), ih]
        have hcnt : (if p = r.period then cnt r.period + 1 else cnt p) = cnt p :=
          if_neg (fun h => hp h.symm)
        rw [hcnt]
    · rw [if_neg hc]
      by_cases hp : r.period = p
      · subst hp
        rw [List.filter_cons_of_pos (by simp), ih]
        have hz : n - cnt r.period = 0 := by omega
        rw [hz, List.take_zero, List.take_zero]
      · rw [List.filter_cons_of_neg (by simp [hp]), ih]

theorem headPerGroup_subset {P : Type} [DecidableEq P] (n : ℕ) :
    ∀ (l : List (AggRow P)) (cnt : P → ℕ) (r : AggRow P),
      r ∈ headPerGroup n cnt l → r ∈ l := by
  intro l
  induction l with
  | nil => intro cnt r hr; simp [headPerGroup] at hr
  | cons a rs ih =>
    intro cnt r hr
    unfold headPerGroup at hr
    by_cases hc : cnt a.period < n
    · rw [if_pos hc] at hr
      rcases List.mem_cons.mp hr with rfl | hr2
      · exact List.mem_cons_self _ _
      · exact List.mem_cons_of_mem _ (ih _ r hr2)
    · rw [if_neg hc] at hr
      exact List.mem_cons_of_mem _ (ih _ r hr)

theorem count_gt_of_mem_take {P : Type} [DecidableEq P] :
    ∀ (l : List (AggRow P)) (n : ℕ) (r : AggRow P),
      l.Pairwise (fun a b => b.totalUSD ≤ a.totalUSD) → r ∈ l.take n →
      l.countP (fun q => decide (r.totalUSD < q.totalUSD)) < n := by
  intro l
  induction l with
  | nil => intro n r _ hr; simp at hr
  | cons a g ih =>
    intro n r hp hr
    cases n with
    | zero => simp at hr
    | succ m =>
      rw [List.take_succ_cons] at hr
      have hhead : ∀ b ∈ g, b.totalUSD ≤ a.totalUSD :=
        fun b hb => (List.pairwise_cons.mp hp).1 b hb
      have htail := (List.pairwise_cons.mp hp).2
      rcases List.mem_cons.mp hr with heq | hr2
      · have hz : (a :: g).countP (fun q => decide (r.totalUSD < q.totalUSD)) = 0 := by
          rw [List.countP_eq_zero]
          intro q hq
          simp only [decide_eq_true_eq, not_lt]
          rw [heq]
          rcases List.mem_cons.mp hq with heq2 | hq2
          · rw [heq2]
          · exact hhead q hq2
        rw [hz]; omega
      · have hcount := ih m r htail hr2
        rw [List.countP_cons]
        have : (if decide (r.totalUSD < a.totalUSD) = true then 1 else 0) ≤ 1 := by
          split <;> omega
        omega

theorem top_n_count_le {P : Type} [DecidableEq P] (pLt : P → P → Bool)
    (t : List (AggRow P)) (n : ℕ) (p : P) :
    ((top_n_per_period pLt t n).filter (fun r => decide (r.period = p))).length ≤ n := by
  unfold top_n_per_period
  rw [headPerGroup_filter]
  exact le_trans (List.length_take_le _ _) (by omega)

theorem top_n_rank_lt {P : Type} [DecidableEq P] (pLt : P → P → Bool)
    (hT : ∀ x y z, pLt x y = true → pLt y z = true → pLt x z = true)
    (hA : ∀ x y, pLt x y = false → pLt y x = false → x = y)
    (hIr : ∀ x, pLt x x = false)
    (t : List (AggRow P)) (n : ℕ) (r : AggRow P)
    (hr : r ∈ top_n_per_period pLt t n) :
    t.countP (fun q => decide (q.period = r.period) &&
      decide (r.totalUSD < q.totalUSD)) < n := by
  have hperm := sortPeriodTotal_perm pLt t
  rw [← hperm.countP_eq]
  have hcpq : (sortPeriodTotal pLt t).countP (fun q => decide (q.period = r.period) &&
      decide (r.totalUSD < q.totalUSD)) =
      ((sortPeriodTotal pLt t).filter (fun q => decide (q.period = r.period))).countP
        (fun q => decide (r.totalUSD < q.totalUSD)) := by
    rw [List.countP_filter]
    apply List.countP_congr
    intro q _
    cases hq1 : decide (q.period = r.period) <;>
      cases hq2 : decide (r.totalUSD < q.totalUSD) <;> simp [hq1, hq2]
  rw [hcpq]
  have hsorted := sortPeriodTotal_sorted pLt hT hA t
  have hgroup := hsorted.filter (fun q => decide (q.period = r.period))
  have hdesc : ((sortPeriodTotal pLt t).filter
      (fun q => decide (q.period = r.period))).Pairwise
        (fun a b => b.totalUSD ≤ a.totalUSD) := by
    apply hgroup.imp_of_mem
    intro a b ha hb hab
    have hap : a.period = r.period := of_decide_eq_true (List.mem_filter.mp ha).2
    have hbp : b.period = r.period := of_decide_eq_true (List.mem_filter.mp hb).2
    simp only [lexLe, Bool.or_eq_true, Bool.and_eq_true, beq_iff_eq,
      decide_eq_true_eq] at hab
    rcases hab with h1 | ⟨_, h2⟩
    · rw [hap, hbp, hIr r.period] at h1
      cases h1
    · exact h2
  have hfil : (top_n_per_period pLt t n).filter (fun x => decide (x.period = r.period)) =
      ((sortPeriodTotal pLt t).filter (fun x => decide (x.period = r.period))).take n := by
    unfold top_n_per_period
    rw [headPerGroup_filter]
    simp
  have hrg : r ∈ ((sortPeriodTotal pLt t).filter
      (fun x => decide (x.period = r.period))).take n := by
    rw [← hfil]
    exact List.mem_filter.mpr ⟨hr, by simp⟩
  exact count_gt_of_mem_take _ n r hdesc hrg

theorem strLt_trans (x y z : String) (h1 : strLt x y = true) (h2 : strLt y z = true) :
    strLt x z = true :=
  (strLt_iff x z).mpr (lt_trans ((strLt_iff x y).mp h1) ((strLt_iff y z).mp h2))

theorem strLt_antisymm_false (x y : String) (h1 : strLt x y = false)
    (h2 : strLt y x = false) : x = y :=
  le_antisymm (not_lt.mp ((strLt_false_iff y x).mp h2))
    (not_lt.mp ((strLt_false_iff x y).mp h1))

theorem strLt_irrefl (x : String) : strLt x x = false :=
  (strLt_false_iff x x).mpr (lt_irrefl x)

/-- C5: for every aggregate table and every N, the top-N selection keeps at
most N rows per period, and every kept row has fewer than N rows of its
period with strictly larger totalUSD — stated for the monthly (String
periods) and yearly (ℤ periods) instantiations used in `main`. -/
theorem C5_top_n_selection (monthly : List (AggRow String))
    (yearly : List (AggRow ℤ)) (n : ℕ) :
    (∀ p : String, ((top_n_per_period strLt monthly n).filter
      (fun r => decide (r.period = p))).length ≤ n) ∧
    (∀ r ∈ top_n_per_period strLt monthly n,
      monthly.countP (fun q => decide (q.period = r.period) &&
        decide (r.totalUSD < q.totalUSD)) < n) ∧
    (∀ p : ℤ, ((top_n_per_period (fun a b => decide (a < b)) yearly n).filter
      (fun r => decide (r.period = p))).length ≤ n) ∧
    (∀ r ∈ top_n_per_period (fun a b => decide (a < b)) yearly n,
      yearly.countP (fun q => decide (q.period = r.period) &&
        decide (r.totalUSD < q.totalUSD)) < n) := by
  refine ⟨fun p => top_n_count_le strLt monthly n p, ?_,
    fun p => top_n_count_le _ yearly n p, ?_⟩
  · intro r hr
    exact top_n_rank_lt strLt strLt_trans strLt_antisymm_false strLt_irrefl monthly n r hr
  · intro r hr
    refine top_n_rank_lt _ ?_ ?_ ?_ yearly n r hr
    · intro x y z h1 h2
      simp only [decide_eq_true_eq] at h1 h2 ⊢
      omega
    · intro x y h1 h2
      simp only [decide_eq_false_iff_not] at h1 h2
      omega
    · intro x
      simp

/-- A monthly aggregate row for concrete instances. -/
def aggOf (p : String) (bid : ℤ) (name : String) (tot : ℚ) : AggRow String :=
  { period := p, bridgeId := bid, bridgeName := name,
    depositUSD := tot, withdrawUSD := 0, totalUSD := tot, netUSD := tot }

theorem C5_top_n_selection_witness :
    ((top_n_per_period strLt [aggOf ("2023-01") 1 ("A") 100,
        aggOf ("2023-01") 2 ("B") 300] 1).filter
      (fun r => decide (r.period = "2023-01"))).length ≤ 1 ∧
    [aggOf ("2023-01") 1 ("A") 100, aggOf ("2023-01") 2 ("B") 300].countP
      (fun q => decide (q.period = (aggOf ("2023-01") 2 ("B") 300).period) &&
        decide ((aggOf ("2023-01") 2 ("B") 300).totalUSD < q.totalUSD)) < 1 :=
  ⟨(C5_top_n_selection [aggOf ("2023-01") 1 ("A") 100, aggOf ("2023-01") 2 ("B") 300]
      [] 1).1 ("2023-01"),
   (C5_top_n_selection [aggOf ("2023-01") 1 ("A") 100, aggOf ("2023-01") 2 ("B") 300]
      [] 1).2.1 (aggOf ("2023-01") 2 ("B") 300) (by decide)⟩

theorem lookupTotal_map {P : Type} [DecidableEq P] (g : P → ℚ) (ps : List P) (p : P)
    (hp : p ∈ ps) :
    lookupTotal (ps.map (fun q => (q, g q))) p = some (g p) := by
  induction ps with
  | nil => cases hp
  | cons q qs ih =>
    by_cases h : q = p
    · subst h
      simp [lookupTotal, List.find?_cons]
    · rcases List.mem_cons.mp hp with heq | hp2
      · exact absurd heq.symm h
      · have hrec := ih hp2
        unfold lookupTotal at hrec ⊢
        rw [List.map_cons, List.find?_cons_of_neg _ (by simp [h])]
        exact hrec

theorem addShares_mem {P : Type} [DecidableEq P] (topn : List (AggRow P))
    (totals : List (P × ℚ)) (en : TopEntry P) (hen : en ∈ addShares topn totals) :
    en.toAggRow ∈ topn ∧
      en.shares = sharesVal en.totalUSD (lookupTotal totals en.period) := by
  unfold addShares at hen
  obtain ⟨r, hr, rfl⟩ := List.mem_map.mp hen
  exact ⟨hr, rfl⟩

theorem top_n_subset {P : Type} [DecidableEq P] (pLt : P → P → Bool)
    (t : List (AggRow P)) (n : ℕ) (r : AggRow P)
    (hr : r ∈ top_n_per_period pLt t n) : r ∈ t :=
  (sortPeriodTotal_perm pLt t).subset (headPerGroup_subset n _ _ r hr)

theorem lookup_periodTotals {P : Type} [DecidableEq P] (t : List (AggRow P)) (p : P)
    (hp : p ∈ t.map (fun r => r.period)) :
    lookupTotal (periodTotals t) p = some (periodTotalUSD t p) := by
  unfold periodTotals
  exact lookupTotal_map (fun q => periodTotalUSD t q) _ p (List.mem_dedup.mpr hp)

theorem mem_total_eq_zero {P : Type} [DecidableEq P] (t : List (AggRow P))
    (r : AggRow P) (hr : r ∈ t) (hnn : ∀ x ∈ t, 0 ≤ x.totalUSD)
    (hz : periodTotalUSD t r.period = 0) : r.totalUSD = 0 := by
  have hmem : r.totalUSD ∈ ((t.filter (fun x => decide (x.period = r.period))).map
      (fun x => x.totalUSD)) :=
    List.mem_map_of_mem _ (List.mem_filter.mpr ⟨hr, by simp⟩)
  have hnn2 : ∀ y ∈ ((t.filter (fun x => decide (x.period = r.period))).map
      (fun x => x.totalUSD)), 0 ≤ y := by
    intro y hy
    obtain ⟨x, hx, rfl⟩ := List.mem_map.mp hy
    exact hnn x (List.mem_filter.mp hx).1
  have hle := List.single_le_sum hnn2 _ hmem
  unfold periodTotalUSD at hz
  rw [hz] at hle
  exact le_antisymm hle (hnn r hr)

theorem topWithShares_spec {P : Type} [DecidableEq P] (pLt : P → P → Bool)
    (t : List (AggRow P)) (n : ℕ) (en : TopEntry P)
    (hen : en ∈ addShares (top_n_per_period pLt t n) (periodTotals t)) :
    (periodTotalUSD t en.period ≠ 0 →
      en.shares = some (round2 (100 * en.totalUSD / periodTotalUSD t en.period))) ∧
    (periodTotalUSD t en.period = 0 → en.totalUSD = 0 → en.shares = some 0) ∧
    ((∀ x ∈ t, 0 ≤ x.totalUSD) → periodTotalUSD t en.period = 0 →
      en.shares = some 0) := by
  obtain ⟨hbase, hsh⟩ := addShares_mem _ _ en hen
  have hmem : en.toAggRow ∈ t := top_n_subset pLt t n _ hbase
  have hper : en.period ∈ t.map (fun r => r.period) :=
    List.mem_map_of_mem (fun r => r.period) hmem
  rw [lookup_periodTotals t en.period hper] at hsh
  have hzero : periodTotalUSD t en.period = 0 → en.totalUSD = 0 → en.shares = some 0 := by
    intro hT h0
    rw [hsh]
    show (if periodTotalUSD t en.period = 0 then
        (if en.totalUSD = 0 then some 0 else Option.none)
      else some (round2 (en.totalUSD / periodTotalUSD t en.period * 100))) = some 0
    rw [if_pos hT, if_pos h0]
  refine ⟨?_, hzero, ?_⟩
  · intro hT
    rw [hsh]
    show (if periodTotalUSD t en.period = 0 then
        (if en.totalUSD = 0 then some 0 else Option.none)
      else some (round2 (en.totalUSD / periodTotalUSD t en.period * 100))) = _
    rw [if_neg hT]
    congr 2
    ring
  · intro hnn hT
    exact hzero hT (mem_total_eq_zero t en.toAggRow hmem hnn hT)

/-- C3 counterexample: in a period whose totals are +5 and −5 the period
total is 0, yet neither entry's shares is 0.0 — both are non-finite
(`x / 0 = ±inf` survives `fillna`), contradicting the claim that shares is
0.0 for every entry of a zero-total period. -/
theorem C3_counterexample :
    periodTotalUSD [aggOf ("2023-01") 1 ("A") 5, aggOf ("2023-01") 2 ("B") (-5)]
        ("2023-01") = 0 ∧
    (monthlyTopWithShares [aggOf ("2023-01") 1 ("A") 5,
        aggOf ("2023-01") 2 ("B") (-5)] 5).map (fun en => en.shares) =
      [Option.none, Option.none] := by decide

/-- C3 (amended): every top-N entry's shares equals
100·totalUSD/periodTotalUSD rounded to two decimals whenever the full-period
total (over ALL bridges of the period, not only the top N) is nonzero; when
the period total is 0, every entry whose own totalUSD is 0 has shares 0.0 —
in particular every entry, whenever all totals are nonnegative — while an
entry with nonzero totalUSD in a zero-total period (possible only with
negative daily totals) yields a non-finite shares value instead of 0.0. -/
theorem C3_shares (monthly : List (AggRow String)) (yearly : List (AggRow ℤ)) (n : ℕ) :
    (∀ en ∈ monthlyTopWithShares monthly n,
      (periodTotalUSD monthly en.period ≠ 0 →
        en.shares = some (round2 (100 * en.totalUSD / periodTotalUSD monthly en.period))) ∧
      (periodTotalUSD monthly en.period = 0 → en.totalUSD = 0 → en.shares = some 0) ∧
      ((∀ x ∈ monthly, 0 ≤ x.totalUSD) → periodTotalUSD monthly en.period = 0 →
        en.shares = some 0)) ∧
    (∀ en ∈ yearlyTopWithShares yearly n,
      (periodTotalUSD yearly en.period ≠ 0 →
        en.shares = some (round2 (100 * en.totalUSD / periodTotalUSD yearly en.period))) ∧
      (periodTotalUSD yearly en.period = 0 → en.totalUSD = 0 → en.shares = some 0) ∧
      ((∀ x ∈ yearly, 0 ≤ x.totalUSD) → periodTotalUSD yearly en.period = 0 →
        en.shares = some 0)) :=
  ⟨fun en hen => topWithShares_spec strLt monthly n en hen,
   fun en hen => topWithShares_spec (fun a b => decide (a < b)) yearly n en hen⟩

/-- The top entry of the spec's end-to-end scenario: bridge B with total 300
out of a 400 period total, shares 75.00. -/
def entryB : TopEntry String :=
  { toAggRow := aggOf ("2023-01") 2 ("B") 300, shares := some 75 }

theorem C3_shares_witness :
    entryB.shares = some (round2 (100 * entryB.totalUSD /
      periodTotalUSD [aggOf ("2023-01") 1 ("A") 100, aggOf ("2023-01") 2 ("B") 300]
        entryB.period)) :=
  ((C3_shares [aggOf ("2023-01") 1 ("A") 100, aggOf ("2023-01") 2 ("B") 300] [] 1).1
    entryB (by decide)).1 (by decide)

/-- The context of a terminal fetch failure:
RuntimeError(f"GET failed for ... params=...: last_exc") at source line 106. -/
structure FetchError (E : Type) where
  url : String
  params : Option String
  lastExc : Option E
deriving DecidableEq, Repr

/-- What one run of http_get_json did: final result, number of attempts
performed, and the sleeps executed between attempts, in order. -/
structure FetchTrace (E J : Type) where
  result : Except (FetchError E) J
  attemptsMade : ℕ
  sleeps : List ℚ

/-- The retry loop of http_get_json (source lines 92–105). `oracle i` is the
outcome of attempt `i + 1` (the GET, status check and JSON decode together);
`left` is how many attempts remain, `delay` the current backoff delay and
`last` the last exception seen. Returns (payload on success, last exception,
attempts performed, sleeps performed in order). -/
def httpGo {E J : Type} (oracle : ℕ → Except E J) :
    ℕ → ℕ → ℚ → Option E → Option J × Option E × ℕ × List ℚ
  | 0, _, _, last => (Option.none, last, 0, [])
  | left + 1, idx, delay, last =>
    match oracle idx with
    | .ok j => (some j, last, 1, [])
    | .error e =>
      if left = 0 then (Option.none, some e, 1, [])
      else
        let t := httpGo oracle left (idx + 1) (min (delay * 2) 8) (some e)
        (t.1, t.2.1, t.2.2.1 + 1, delay :: t.2.2.2)

/-- http_get_json (source lines 85–106): up to max_retries attempts with the
delay doubling after each failure, capped at 8 seconds; a success returns the
decoded JSON body immediately, exhaustion raises an error naming the url, the
params and the last underlying exception. -/
def http_get_json {E J : Type} (oracle : ℕ → Except E J) (url : String)
    (params : Option String) (maxRetries : ℕ) (initialDelay : ℚ) :
    FetchTrace E J :=
  let t := httpGo oracle maxRetries 0 initialDelay Option.none
  { result := match t.1 with
      | some j => .ok j
      | Option.none => .error { url := url, params := params, lastExc := t.2.1 }
    attemptsMade := t.2.2.1
    sleeps := t.2.2.2 }

/-- The backoff sequence: first the current delay, then each next sleep is
the double of the previous one capped at 8. -/
def delaySeq (d : ℚ) : ℕ → List ℚ
  | 0 => []
  | k + 1 => d :: delaySeq (min (d * 2) 8) k

theorem httpGo_succ_ok {E J : Type} (oracle : ℕ → Except E J) (left idx : ℕ)
    (delay : ℚ) (last : Option E) (j : J) (hj : oracle idx = .ok j) :
    httpGo oracle (left + 1) idx delay last = (some j, last, 1, []) := by
  conv_lhs => unfold httpGo
  rw [hj]

theorem httpGo_succ_error {E J : Type} (oracle : ℕ → Except E J) (left idx : ℕ)
    (delay : ℚ) (last : Option E) (e : E) (he : oracle idx = .error e) :
    httpGo oracle (left + 1) idx delay last =
      if left = 0 then (Option.none, some e, 1, [])
      else
        ((httpGo oracle left (idx + 1) (min (delay * 2) 8) (some e)).1,
         (httpGo oracle left (idx + 1) (min (delay * 2) 8) (some e)).2.1,
         (httpGo oracle left (idx + 1) (min (delay * 2) 8) (some e)).2.2.1 + 1,
         delay :: (httpGo oracle left (idx + 1) (min (delay * 2) 8) (some e)).2.2.2) := by
  conv_lhs => unfold httpGo
  rw [he]

theorem httpGo_attempts_le {E J : Type} (oracle : ℕ → Except E J) :
    ∀ (m idx : ℕ) (delay : ℚ) (last : Option E),
      (httpGo oracle m idx delay last).2.2.1 ≤ m := by
  intro m
  induction m with
  | zero => intro idx delay last; simp [httpGo]
  | succ m2 ih =>
    intro idx delay last
    cases ho : oracle idx with
    | ok j =>
      rw [httpGo_succ_ok oracle m2 idx delay last j ho]
      show (1 : ℕ) ≤ m2 + 1
      omega
    | error e =>
      rw [httpGo_succ_error oracle m2 idx delay last e ho]
      by_cases h : m2 = 0
      · rw [if_pos h]
        show (1 : ℕ) ≤ m2 + 1
        omega
      · rw [if_neg h]
        have hrec := ih (idx + 1) (min (delay * 2) 8) (some e)
        show (httpGo oracle m2 (idx + 1) (min (delay * 2) 8) (some e)).2.2.1 + 1 ≤ m2 + 1
        omega

theorem httpGo_success {E J : Type} (oracle : ℕ → Except E J) :
    ∀ (k m idx : ℕ) (delay : ℚ) (last : Option E) (j : J),
      k < m → (∀ i, i < k → ∃ e, oracle (idx + i) = .error e) →
      oracle (idx + k) = .ok j →
      (httpGo oracle m idx delay last).1 = some j ∧
      (httpGo oracle m idx delay last).2.2.1 = k + 1 ∧
      (httpGo oracle m idx delay last).2.2.2 = delaySeq delay k := by
  intro k
  induction k with
  | zero =>
    intro m idx delay last j hk hfail hok
    rw [Nat.add_zero] at hok
    cases m with
    | zero => omega
    | succ m2 =>
      rw [httpGo_succ_ok oracle m2 idx delay last j hok]
      exact ⟨rfl, rfl, rfl⟩
  | succ k ih =>
    intro m idx delay last j hk hfail hok
    cases m with
    | zero => omega
    | succ m2 =>
      obtain ⟨e0, he0⟩ := hfail 0 (Nat.succ_pos k)
      rw [Nat.add_zero] at he0
      rw [httpGo_succ_error oracle m2 idx delay last e0 he0]
      have hm2 : ¬ m2 = 0 := by omega
      rw [if_neg hm2]
      have hih := ih m2 (idx + 1) (min (delay * 2) 8) (some e0) j (by omega)
        (fun i hi => by
          obtain ⟨e, he⟩ := hfail (i + 1) (by omega)
          have hidx : idx + 1 + i = idx + (i + 1) := by omega
          exact ⟨e, by rw [hidx]; exact he⟩)
        (by
          have hidx : idx + 1 + k = idx + (k + 1) := by omega
          rw [hidx]; exact hok)
      refine ⟨hih.1, ?_, ?_⟩
      · show (httpGo oracle m2 (idx + 1) (min (delay * 2) 8) (some e0)).2.2.1 + 1 = k + 1 + 1
        rw [hih.2.1]
      · show delay :: (httpGo oracle m2 (idx + 1) (min (delay * 2) 8) (some e0)).2.2.2
          = delaySeq delay (k + 1)
        rw [hih.2.2]
        rfl

theorem httpGo_exhaust {E J : Type} (oracle : ℕ → Except E J) :
    ∀ (m idx : ℕ) (delay : ℚ) (last : Option E),
      0 < m → (∀ i, i < m → ∃ e, oracle (idx + i) = .error e) →
      ∃ eL, oracle (idx + (m - 1)) = .error eL ∧
        (httpGo oracle m idx delay last).1 = Option.none ∧
        (httpGo oracle m idx delay last).2.1 = some eL ∧
        (httpGo oracle m idx delay last).2.2.1 = m ∧
        (httpGo oracle m idx delay last).2.2.2 = delaySeq delay (m - 1) := by
  intro m
  induction m with
  | zero => intro idx delay last h; omega
  | succ m2 ih =>
    intro idx delay last _ hfail
    obtain ⟨e0, he0⟩ := hfail 0 (by omega)
    rw [Nat.add_zero] at he0
    by_cases h : m2 = 0
    · subst h
      refine ⟨e0, by simpa using he0, ?_, ?_, ?_, ?_⟩ <;>
        (rw [httpGo_succ_error oracle 0 idx delay last e0 he0, if_pos rfl]; try rfl)
    · obtain ⟨eL, heL, h1, h2, h3, h4⟩ := ih (idx + 1) (min (delay * 2) 8) (some e0)
        (by omega) (fun i hi => by
          obtain ⟨e, he⟩ := hfail (i + 1) (by omega)
          have hidx : idx + 1 + i = idx + (i + 1) := by omega
          exact ⟨e, by rw [hidx]; exact he⟩)
      refine ⟨eL, ?_, ?_, ?_, ?_, ?_⟩
      · have hidx : idx + (m2 + 1 - 1) = idx + 1 + (m2 - 1) := by omega
        rw [hidx]; exact heL
      · rw [httpGo_succ_error oracle m2 idx delay last e0 he0, if_neg h]
        exact h1
      · rw [httpGo_succ_error oracle m2 idx delay last e0 he0, if_neg h]
        exact h2
      · rw [httpGo_succ_error oracle m2 idx delay last e0 he0, if_neg h]
        show (httpGo oracle m2 (idx + 1) (min (delay * 2) 8) (some e0)).2.2.1 + 1 = m2 + 1
        rw [h3]
      · rw [httpGo_succ_error oracle m2 idx delay last e0 he0, if_neg h]
        show delay :: (httpGo oracle m2 (idx + 1) (min (delay * 2) 8) (some e0)).2.2.2
          = delaySeq delay (m2 + 1 - 1)
        rw [h4]
        have hm : m2 + 1 - 1 = (m2 - 1) + 1 := by omega
        rw [hm]
        rfl

theorem http_get_json_result_eq {E J : Type} (oracle : ℕ → Except E J)
    (url : String) (params : Option String) (m : ℕ) (d : ℚ) :
    (http_get_json oracle url params m d).result =
      (match (httpGo oracle m 0 d Option.none).1 with
        | some j => Except.ok j
        | Option.none => Except.error
            (⟨url, params, (httpGo oracle m 0 d Option.none).2.1⟩ : FetchError E)) := rfl

theorem delaySeq_length : ∀ (k : ℕ) (d : ℚ), (delaySeq d k).length = k := by
  intro k
  induction k with
  | zero => intro d; rfl
  | succ k2 ih =>
    intro d
    show (d :: delaySeq (min (d * 2) 8) k2).length = k2 + 1
    simp [ih]

theorem delaySeq_getD_succ : ∀ (k : ℕ) (d : ℚ) (i : ℕ), i + 1 < k →
    (delaySeq d k).getD (i + 1) 0 = min ((delaySeq d k).getD i 0 * 2) 8 := by
  intro k
  induction k with
  | zero => intro d i h; omega
  | succ k2 ih =>
    intro d i h
    cases i with
    | zero =>
      show (delaySeq (min (d * 2) 8) k2).getD 0 0 = min (d * 2) 8
      cases k2 with
      | zero => omega
      | succ k3 => rfl
    | succ i2 =>
      show (delaySeq (min (d * 2) 8) k2).getD (i2 + 1) 0 =
        min ((delaySeq (min (d * 2) 8) k2).getD i2 0 * 2) 8
      exact ih (min (d * 2) 8) i2 (by omega)

/-- C8: http_get_json performs at most maxRetries attempts. If the first k
attempts fail and attempt k+1 succeeds (k < maxRetries), it returns that
parsed body after exactly k+1 attempts, having slept exactly once per
failure — the first sleep is initialDelay and each following sleep is the
double of the previous one capped at 8 seconds — and makes no further
attempts. Only when all maxRetries attempts fail does it raise a terminal
error carrying the url, the params and the last underlying failure, after
exactly maxRetries attempts. -/
theorem C8_http_get_json_retry {E J : Type} (oracle : ℕ → Except E J)
    (url : String) (params : Option String) (m : ℕ) (d : ℚ) :
    (http_get_json oracle url params m d).attemptsMade ≤ m ∧
    (∀ k j, k < m → (∀ i, i < k → ∃ e, oracle i = .error e) → oracle k = .ok j →
      (http_get_json oracle url params m d).result = .ok j ∧
      (http_get_json oracle url params m d).attemptsMade = k + 1 ∧
      (http_get_json oracle url params m d).sleeps.length = k ∧
      (0 < k → (http_get_json oracle url params m d).sleeps.head? = some d) ∧
      (∀ i, i + 1 < (http_get_json oracle url params m d).sleeps.length →
        (http_get_json oracle url params m d).sleeps.getD (i + 1) 0 =
          min ((http_get_json oracle url params m d).sleeps.getD i 0 * 2) 8)) ∧
    ((∀ i, i < m → ∃ e, oracle i = .error e) → 0 < m →
      ∃ eL, oracle (m - 1) = .error eL ∧
        (http_get_json oracle url params m d).result =
          .error { url := url, params := params, lastExc := some eL } ∧
        (http_get_json oracle url params m d).attemptsMade = m ∧
        (http_get_json oracle url params m d).sleeps.length = m - 1) := by
  refine ⟨httpGo_attempts_le oracle m 0 d Option.none, ?_, ?_⟩
  · intro k j hk hfail hok
    have hs := httpGo_success oracle k m 0 d Option.none j hk
      (fun i hi => by rw [Nat.zero_add]; exact hfail i hi)
      (by rw [Nat.zero_add]; exact hok)
    have hres : (http_get_json oracle url params m d).result = .ok j := by
      rw [http_get_json_result_eq, hs.1]
    have hsleeps : (http_get_json oracle url params m d).sleeps = delaySeq d k := hs.2.2
    refine ⟨hres, hs.2.1, ?_, ?_, ?_⟩
    · rw [hsleeps, delaySeq_length]
    · intro hk0
      rw [hsleeps]
      cases k with
      | zero => omega
      | succ k2 => rfl
    · intro i h
      rw [hsleeps] at h ⊢
      rw [delaySeq_length] at h
      exact delaySeq_getD_succ k d i h
  · intro hfail hm
    obtain ⟨eL, heL, h1, h2, h3, h4⟩ := httpGo_exhaust oracle m 0 d Option.none hm
      (fun i hi => by rw [Nat.zero_add]; exact hfail i hi)
    rw [Nat.zero_add] at heL
    refine ⟨eL, heL, ?_, h3, ?_⟩
    · rw [http_get_json_result_eq, h1, h2]
    · show (httpGo oracle m 0 d Option.none).2.2.2.length = m - 1
      rw [h4, delaySeq_length]

/-- An attempt oracle that fails twice and succeeds on the third attempt. -/
def oracleTwoFail : ℕ → Except String ℕ :=
  fun i => if i < 2 then .error ("boom " ++ toString i) else .ok 42

theorem C8_http_get_json_retry_witness :
    (http_get_json oracleTwoFail ("https://bridges.llama.fi/bridges")
        Option.none 5 (2/5)).result = .ok 42 ∧
    (http_get_json oracleTwoFail ("https://bridges.llama.fi/bridges")
        Option.none 5 (2/5)).attemptsMade = 3 ∧
    (http_get_json oracleTwoFail ("https://bridges.llama.fi/bridges")
        Option.none 5 (2/5)).sleeps.length = 2 := by
  have h := (C8_http_get_json_retry oracleTwoFail ("https://bridges.llama.fi/bridges")
      Option.none 5 (2/5)).2.1 2 42 (by omega)
    (fun i hi => ⟨"boom " ++ toString i, by
      unfold oracleTwoFail
      rw [if_pos hi]⟩)
    (by unfold oracleTwoFail; rfl)
  exact ⟨h.1, h.2.1, h.2.2.1⟩
